import Mathlib

/-
Verification development for the Houdini HDRI Loader repository
(single source file `loader.py`).

The development shallowly embeds the two cores of the program:

* the perceptual-hash engine (`dct_1d`, `dct_2d`, `phash`,
  `ImageHash.__sub__`), modelled over the reals (the Python code works
  with `float64`; the structural claims under scrutiny concern which
  coefficients are used, which mean is taken and how the comparison is
  made, so the idealised real-number semantics is the faithful shallow
  embedding); and

* the SQLite-backed catalog (`initialize_database`, `add_hdri`,
  `drop_column_from_table`, `add_new_tag`, `load_hdri_images`,
  `delete_hdri`), modelled as a state machine over an explicit table
  value.  SQL statements are given their documented SQLite semantics:
  assoc-list rows, `PRAGMA table_info` fields on columns, rowid
  assignment (`max+1`, or `max(max, sqlite_sequence)+1` under
  AUTOINCREMENT, with the sequence lost when the table is dropped and
  recreated without the AUTOINCREMENT keyword), and
  commit-or-rollback transactions.
-/

namespace HDRILoader

/-! ## SQL values, rows, tables -/

/-- Dynamically typed SQLite storage cell (the columns used by
`loader.py` hold INTEGER, TEXT or NULL values). -/
inductive SQLValue where
  | int (i : ℤ)
  | text (s : String)
  | null
deriving DecidableEq, Repr

/-- One row of `PRAGMA table_info`: the exact fields `loader.py` reads in
`drop_column_from_table` (cid is positional and omitted): name, declared
type, NOT NULL flag, default value, PRIMARY KEY flag. -/
structure ColumnInfo where
  name : String
  typ : String
  notnull : Bool
  dflt : Option SQLValue
  pk : Bool
deriving DecidableEq, Repr

/-- A table row as an association list from column name to value, kept in
column order. -/
abbrev Row := List (String × SQLValue)

/-- Value of column `c` in row `r` (NULL when the column is absent). -/
def rowGet (r : Row) (c : String) : SQLValue :=
  match r.find? (fun p => p.1 == c) with
  | some p => p.2
  | none => SQLValue.null

/-- Effect of `UPDATE ... SET c = v` on a single row. -/
def rowSet (r : Row) (c : String) (v : SQLValue) : Row :=
  r.map (fun p => if p.1 == c then (p.1, v) else p)

/-- A table: its `PRAGMA table_info` column list and its rows. -/
structure TableData where
  columns : List ColumnInfo
  rows : List Row
deriving DecidableEq, Repr

/-! ## Schema of the `hdri` table and catalog state

`initialize_database` (loader.py:184-200) creates
`hdri(id INTEGER PRIMARY KEY AUTOINCREMENT, file_path TEXT NOT NULL,
preview_path TEXT NOT NULL, name TEXT NOT NULL, upload_date TEXT NOT
NULL, hash TEXT UNIQUE)`.  `autoinc` records whether the `id` column of
the current table carries the AUTOINCREMENT keyword, and `seq` the
`sqlite_sequence` counter for the table; both are SQLite state that
`PRAGMA table_info` does not expose. -/

def baseColumns : List ColumnInfo :=
  [⟨"id", "INTEGER", false, none, true⟩,
   ⟨"file_path", "TEXT", true, none, false⟩,
   ⟨"preview_path", "TEXT", true, none, false⟩,
   ⟨"name", "TEXT", true, none, false⟩,
   ⟨"upload_date", "TEXT", true, none, false⟩,
   ⟨"hash", "TEXT", false, none, false⟩]

/-- Catalog state: the `hdri` table plus the SQLite rowid-assignment
state (AUTOINCREMENT marking and `sqlite_sequence` value). -/
structure DB where
  table : TableData
  autoinc : Bool
  seq : ℤ
deriving DecidableEq, Repr

/-- State produced by `initialize_database` on a fresh store
(loader.py:184-200). -/
def initialize_database : DB :=
  ⟨⟨baseColumns, []⟩, true, 0⟩

/-- Largest `id` currently in the table (0 when empty), the quantity
SQLite consults when assigning a rowid. -/
def rowId (r : Row) : ℤ :=
  match rowGet r "id" with
  | SQLValue.int i => i
  | _ => 0

def maxRowId (t : TableData) : ℤ :=
  t.rows.foldl (fun m r => max m (rowId r)) 0

/-- Rowid assigned to the next inserted row, per the documented SQLite
rules: one more than the largest existing rowid, or — under
AUTOINCREMENT — one more than the larger of that and the
`sqlite_sequence` entry. -/
def nextRowId (db : DB) : ℤ :=
  if db.autoinc then max (maxRowId db.table) db.seq + 1
  else maxRowId db.table + 1

/-- Value stored in column `c` by an `INSERT` that names the columns in
`vals` and omits the rest: the INTEGER PRIMARY KEY gets the assigned
rowid, every other omitted column gets its declared default (NULL when
there is none). -/
def insertColValue (c : ColumnInfo) (newId : ℤ)
    (vals : List (String × SQLValue)) : SQLValue :=
  if c.name == "id" then SQLValue.int newId
  else
    match vals.find? (fun p => p.1 == c.name) with
    | some p => p.2
    | none => c.dflt.getD SQLValue.null

/-- Row built by such an `INSERT`. -/
def insertRowValues (cols : List ColumnInfo) (newId : ℤ)
    (vals : List (String × SQLValue)) : Row :=
  cols.map (fun c => (c.name, insertColValue c newId vals))

/-! ## Ingestion (`HDRIPreviewLoader.add_hdri`, loader.py:578-622)

For one selected file the method: computes the perceptual hash (skip on
failure), rejects when a record with that exact hash already exists
(fetching the conflicting record's id and inserting nothing), otherwise
inserts a record with empty path fields, reads back the assigned id,
copies the source file, generates a preview and finally updates the
record's two path fields.  A failure while materializing the files
(e.g. `shutil.copy` raising) aborts before the `UPDATE`, leaving the
inserted record with its hash and empty paths.  The boolean
`materializeOk` stands for whether the external file operations
succeed; the `ℕ` component of the result counts the files written into
catalog storage (copy + preview). -/

inductive IngestOutcome where
  | hashError
  | duplicate (existingId : ℤ)
  | ingested (newId : ℤ)
  | createFailed (newId : ℤ)
deriving DecidableEq, Repr

/-- Predicate used by the dedup check
`SELECT id FROM hdri WHERE hash = ?` (loader.py:590). -/
def hashMatchRow (h : String) (r : Row) : Bool :=
  rowGet r "hash" == SQLValue.text h

/-- Values named by the `INSERT` at loader.py:599-602. -/
def ingestVals (nm dt h : String) : List (String × SQLValue) :=
  [("file_path", SQLValue.text ""), ("preview_path", SQLValue.text ""),
   ("name", SQLValue.text nm), ("upload_date", SQLValue.text dt),
   ("hash", SQLValue.text h)]

/-- Canonical copy location inside the catalog folder.  The on-disk
folder layout is out of scope for the specification; the model only
needs a deterministic non-empty path string. -/
def materializedFilePath (nm : String) : String :=
  "store/" ++ nm ++ "/file"

def materializedPreviewPath (nm : String) : String :=
  "store/" ++ nm ++ "/preview.jpg"

/-- One iteration of the loop body of `add_hdri` (loader.py:582-620) for
a single file whose computed hash is `imageHash`. -/
def add_hdri_one (db : DB) (imageHash : Option String) (nm dt : String)
    (materializeOk : Bool) : DB × IngestOutcome × ℕ :=
  match imageHash with
  | none => (db, IngestOutcome.hashError, 0)
  | some h =>
    match db.table.rows.find? (hashMatchRow h) with
    | some r => (db, IngestOutcome.duplicate (rowId r), 0)
    | none =>
      let newId := nextRowId db
      let row := insertRowValues db.table.columns newId (ingestVals nm dt h)
      let seq1 := if db.autoinc then newId else db.seq
      if materializeOk then
        let fp := SQLValue.text (materializedFilePath nm)
        let pv := SQLValue.text (materializedPreviewPath nm)
        let rows1 := (db.table.rows ++ [row]).map (fun r0 =>
          if rowGet r0 "id" == SQLValue.int newId then
            rowSet (rowSet r0 "file_path" fp) "preview_path" pv
          else r0)
        (⟨⟨db.table.columns, rows1⟩, db.autoinc, seq1⟩,
         IngestOutcome.ingested newId, 2)
      else
        (⟨⟨db.table.columns, db.table.rows ++ [row]⟩, db.autoinc, seq1⟩,
         IngestOutcome.createFailed newId, 0)

/-! ## Tag sanitization and `add_new_tag`
(`safe_tag_column` loader.py:211-212, `HDRIInfoDialog.add_new_tag`
loader.py:360-381) -/

/-- Python `str.strip()` on the character list: drop leading and
trailing whitespace. -/
def stripData (l : List Char) : List Char :=
  ((l.dropWhile Char.isWhitespace).reverse.dropWhile Char.isWhitespace).reverse

/-- Python `str.strip()`. -/
def stripString (s : String) : String :=
  String.mk (stripData s.data)

/-- Python `str.replace(" ", "_")`: every space character becomes an
underscore. -/
def replaceSpaces (s : String) : String :=
  String.mk (s.data.map (fun c => if c = ' ' then '_' else c))

/-- Column identity of a user tag (loader.py:211-212). -/
def safe_tag_column (tag_name : String) : String :=
  "tag_" ++ replaceSpaces (stripString tag_name)

/-- `add_new_tag` (loader.py:360-381): strip the typed text, bail out on
empty input, `ALTER TABLE hdri ADD COLUMN <col> BOOLEAN DEFAULT 0`
(which backfills the constant default on every existing row and raises
a caught duplicate-column error when the column already exists, in
which case the method returns before the `UPDATE`), then
`UPDATE hdri SET <col> = 1 WHERE id = ?` for the record whose dialog
introduced the tag. -/
def add_new_tag (db : DB) (hdri_id : ℤ) (textInput : String) : DB :=
  let new_tag := stripString textInput
  if new_tag = "" then db
  else
    let col_name := safe_tag_column new_tag
    if db.table.columns.any (fun c => c.name == col_name) then db
    else
      let cols1 := db.table.columns ++
        [⟨col_name, "BOOLEAN", false, some (SQLValue.int 0), false⟩]
      let rows1 := db.table.rows.map (fun r => r ++ [(col_name, SQLValue.int 0)])
      let rows2 := rows1.map (fun r =>
        if rowGet r "id" == SQLValue.int hdri_id then
          rowSet r col_name (SQLValue.int 1)
        else r)
      ⟨⟨cols1, rows2⟩, db.autoinc, db.seq⟩

/-! ## Column removal (`drop_column_from_table`, loader.py:214-240)

The pure value-level effect of a successful rebuild: keep every
`PRAGMA table_info` column except the dropped one (the rendered DDL
reproduces name, type, NOT NULL, DEFAULT and PRIMARY KEY — and nothing
else, so in particular the AUTOINCREMENT keyword of the original DDL is
not reproduced), and copy all rows through the explicit column-name
projection `INSERT INTO tmp (cols) SELECT cols FROM hdri`. -/

def drop_column_from_table (t : TableData) (column_to_drop : String) :
    TableData :=
  let new_columns := t.columns.filter (fun c => !(c.name == column_to_drop))
  ⟨new_columns,
   t.rows.map (fun r => new_columns.map (fun c => (c.name, rowGet r c.name)))⟩

/-! ## Query (`HDRIPreviewLoader.load_hdri_images`, loader.py:474-498)

The method builds `SELECT ... FROM hdri` plus a WHERE clause that is
the `AND`-conjunction of `name LIKE %search%` (only when the search
text is non-empty) and `<tag_col> = 1` for every checked filter
checkbox, then an ORDER BY on `name` or `upload_date`, ascending or
descending.  SQLite `LIKE` is ASCII case-insensitive; its `%`-wrapped
pattern is substring containment (search strings containing the
wildcard characters themselves are outside the model). -/

def textOf : SQLValue → String
  | SQLValue.text s => s
  | _ => ""

def lowerString (s : String) : String :=
  String.mk (s.data.map Char.toLower)

/-- Boolean test that `needle` occurs as a prefix of `hay`. -/
def prefixMatch : List Char → List Char → Bool
  | [], _ => true
  | _ :: _, [] => false
  | a :: as, b :: bs => a == b && prefixMatch as bs

/-- Boolean test that `needle` occurs contiguously inside `hay`. -/
def subMatch (needle : List Char) : List Char → Bool
  | [] => prefixMatch needle []
  | c :: hs => prefixMatch needle (c :: hs) || subMatch needle hs

/-- SQLite `hay LIKE '%' || needle || '%'` for wildcard-free needles. -/
def likeContains (hay needle : String) : Bool :=
  subMatch (lowerString needle).data (lowerString hay).data

/-- The four entries of the sort combo box (loader.py:426-431). -/
inductive SortOption where
  | alphaAsc
  | alphaDesc
  | dateAsc
  | dateDesc
deriving DecidableEq, Repr

def sortColumn : SortOption → String
  | SortOption.alphaAsc => "name"
  | SortOption.alphaDesc => "name"
  | SortOption.dateAsc => "upload_date"
  | SortOption.dateDesc => "upload_date"

def sortDescending : SortOption → Bool
  | SortOption.alphaDesc => true
  | SortOption.dateDesc => true
  | _ => false

/-- Binary comparison of TEXT values (SQLite orders TEXT bytewise; the
`name` and `upload_date` columns hold TEXT). -/
def charListLe : List Char → List Char → Bool
  | [], _ => true
  | _ :: _, [] => false
  | a :: as, b :: bs => decide (a < b) || (a == b && charListLe as bs)

def rowLe (opt : SortOption) (a b : Row) : Bool :=
  if sortDescending opt then
    charListLe (textOf (rowGet b (sortColumn opt))).data
      (textOf (rowGet a (sortColumn opt))).data
  else
    charListLe (textOf (rowGet a (sortColumn opt))).data
      (textOf (rowGet b (sortColumn opt))).data

def insertRowSorted (le : Row → Row → Bool) (r : Row) : List Row → List Row
  | [] => [r]
  | x :: xs => if le r x then r :: x :: xs else x :: insertRowSorted le r xs

/-- ORDER BY, as a sort of the filtered rows. -/
def sortRowsBy (le : Row → Row → Bool) : List Row → List Row
  | [] => []
  | x :: xs => insertRowSorted le x (sortRowsBy le xs)

/-- WHERE conditions collected by loader.py:478-487. -/
def queryConds (searchText : String) (checkedTags : List String) :
    List (Row → Bool) :=
  (if searchText ≠ "" then
    [fun r => likeContains (textOf (rowGet r "name")) searchText]
  else []) ++ checkedTags.map (fun col r => rowGet r col == SQLValue.int 1)

/-- Records returned by `load_hdri_images` for a given search text, set
of checked tag columns and sort option. -/
def load_hdri_images (db : DB) (searchText : String)
    (checkedTags : List String) (opt : SortOption) : List Row :=
  sortRowsBy (rowLe opt)
    (db.table.rows.filter (fun r =>
      (queryConds searchText checkedTags).all (fun c => c r)))

/-! ## Record deletion and rename (loader.py:624-644, 394-404) -/

def delete_hdri (db : DB) (hdri_id : ℤ) : DB :=
  ⟨⟨db.table.columns,
    db.table.rows.filter (fun r => !(rowGet r "id" == SQLValue.int hdri_id))⟩,
   db.autoinc, db.seq⟩

def rename_hdri (db : DB) (hdri_id : ℤ) (newName : String) : DB :=
  ⟨⟨db.table.columns,
    db.table.rows.map (fun r =>
      if rowGet r "id" == SQLValue.int hdri_id then
        rowSet r "name" (SQLValue.text newName)
      else r)⟩,
   db.autoinc, db.seq⟩

/-! ## Catalog operation sequences

`removeTag` rebuilds the table via `drop_column_from_table`; the
rendered `CREATE TABLE` carries no AUTOINCREMENT keyword (PRAGMA
table_info cannot report it) and the `DROP TABLE` discards the
table's `sqlite_sequence` entry, so the rebuilt table assigns rowids by
the plain `max+1` rule. -/

inductive CatalogOp where
  | ingest (imageHash : Option String) (nm dt : String) (matOk : Bool)
  | deleteRecord (hdri_id : ℤ)
  | removeTag (col : String)
  | addTag (hdri_id : ℤ) (tagText : String)
  | renameRecord (hdri_id : ℤ) (newName : String)
deriving DecidableEq, Repr

def applyOp (db : DB) : CatalogOp → DB
  | CatalogOp.ingest h nm dt b => (add_hdri_one db h nm dt b).1
  | CatalogOp.deleteRecord i => delete_hdri db i
  | CatalogOp.removeTag col => ⟨drop_column_from_table db.table col, false, 0⟩
  | CatalogOp.addTag i t => add_new_tag db i t
  | CatalogOp.renameRecord i nm => rename_hdri db i nm

def runOps (db : DB) (ops : List CatalogOp) : DB :=
  ops.foldl applyOp db

/-! ## Perceptual-hash engine (loader.py:21-117)

The pixel buffer handed to the DCT is the `img_size × img_size`
grayscale grid produced by step 1 of `phash` (resampling is decode-side
glue, outside the engine).  It is modelled as a function `ℕ → ℕ → ℝ`
read on indices below `img_size`. -/

/-- The 1D DCT-II of loader.py:55-69: `result[k]` is the cosine sum over
the `N` inputs, scaled by `sqrt(1/N)` for `k = 0` and `sqrt(2/N)`
otherwise. -/
noncomputable def dct_1d (N : ℕ) (v : ℕ → ℝ) (k : ℕ) : ℝ :=
  (∑ n ∈ Finset.range N,
      v n * Real.cos (Real.pi * ((n : ℝ) + 0.5) * (k : ℝ) / (N : ℝ))) *
    (if k = 0 then Real.sqrt (1 / (N : ℝ)) else Real.sqrt (2 / (N : ℝ)))

/-- The 2D DCT-II of loader.py:71-84: a 1D DCT of every row, then a 1D
DCT of every column of the row-transformed matrix, for an `M × N`
input. -/
noncomputable def dct_2d (M N : ℕ) (A : ℕ → ℕ → ℝ) (k j : ℕ) : ℝ :=
  dct_1d M (fun i => dct_1d N (A i) j) k

/-- The top-left `hash_size × hash_size` block `dct[:h,:h]`
(loader.py:106), as a row-major list of rows. -/
noncomputable def dctLowRows (px : ℕ → ℕ → ℝ) (hash_size img_size : ℕ) :
    List (List ℝ) :=
  (List.range hash_size).map (fun i =>
    (List.range hash_size).map (fun j => dct_2d img_size img_size px i j))

/-- `dct_low.flatten()` (loader.py:109): the block in row-major order,
so that dropping the first element removes exactly the (0,0) entry. -/
noncomputable def dctLowFlat (px : ℕ → ℕ → ℝ) (hash_size img_size : ℕ) :
    List ℝ :=
  (dctLowRows px hash_size img_size).flatten

/-- `avg = np.mean(dct_flat[1:])` (loader.py:110-111). -/
noncomputable def phashAvg (px : ℕ → ℕ → ℝ) (hash_size img_size : ℕ) : ℝ :=
  ((dctLowFlat px hash_size img_size).drop 1).sum /
    (((dctLowFlat px hash_size img_size).drop 1).length : ℝ)

/-- Bit (i,j) of the fingerprint: `diff = dct_low > avg` followed by
`diff[0, 0] = 0` (loader.py:114-115). -/
noncomputable def phashBit (px : ℕ → ℕ → ℝ) (hash_size img_size i j : ℕ) :
    Bool :=
  if i = 0 ∧ j = 0 then false
  else decide (phashAvg px hash_size img_size <
    dct_2d img_size img_size px i j)

/-- The fingerprint returned by `phash` (loader.py:86-117): a
`hash_size × hash_size` boolean matrix. -/
noncomputable def phash (px : ℕ → ℕ → ℝ) (hash_size img_size : ℕ) :
    List (List Bool) :=
  (List.range hash_size).map (fun i =>
    (List.range hash_size).map (fun j => phashBit px hash_size img_size i j))

/-- `ImageHash.__sub__` (loader.py:43-48): raise when the flattened
sizes differ, otherwise count the positions where the flattened bit
arrays disagree. -/
def hashSub (a b : List (List Bool)) : Except String ℕ :=
  if a.flatten.length ≠ b.flatten.length then
    Except.error "ImageHashes must be of the same size."
  else
    Except.ok ((a.flatten.zip b.flatten).countP (fun p => !(p.1 == p.2)))

/-! ## The rebuild transaction of `drop_column_from_table`
(loader.py:232-240)

The four statements `CREATE TABLE tmp (...)`,
`INSERT INTO tmp (...) SELECT ... FROM hdri`, `DROP TABLE hdri` and
`ALTER TABLE tmp RENAME TO hdri` are issued between one
`BEGIN TRANSACTION` and one `conn.commit()`; an exception raised by any
statement propagates before the commit, so the store keeps the original
schema and rows (SQLite rolls an uncommitted transaction back).  The
schema is the named-table map of the database file; `FailureOracle`
injects an environment failure (disk full, I/O error) at any of the
four statements. -/

abbrev Schema := List (String × TableData)

def schemaGet (s : Schema) (nm : String) : Option TableData :=
  match s.find? (fun p => p.1 == nm) with
  | some p => some p.2
  | none => none

def schemaSet (s : Schema) (nm : String) (t : TableData) : Schema :=
  s.map (fun p => if p.1 == nm then (p.1, t) else p)

def stmtCreateTable (nm : String) (cols : List ColumnInfo) (s : Schema) :
    Except String Schema :=
  if (schemaGet s nm).isSome then Except.error "table already exists"
  else Except.ok (s ++ [(nm, ⟨cols, []⟩)])

def stmtInsertSelect (dst src : String) (colNames : List String)
    (s : Schema) : Except String Schema :=
  match schemaGet s dst, schemaGet s src with
  | some d, some t =>
    Except.ok (schemaSet s dst
      ⟨d.columns,
       d.rows ++ t.rows.map (fun r => colNames.map (fun c => (c, rowGet r c)))⟩)
  | _, _ => Except.error "no such table"

def stmtDropTable (nm : String) (s : Schema) : Except String Schema :=
  if (schemaGet s nm).isSome then Except.ok (s.filter (fun p => !(p.1 == nm)))
  else Except.error "no such table"

def stmtRenameTable (old new : String) (s : Schema) : Except String Schema :=
  if (schemaGet s new).isSome then Except.error "target table exists"
  else if (schemaGet s old).isSome then
    Except.ok (s.map (fun p => if p.1 == old then (new, p.2) else p))
  else Except.error "no such table"

/-- Statement execution under an injected environment failure. -/
def withFail (b : Bool) (st : Schema → Except String Schema) (s : Schema) :
    Except String Schema :=
  if b then Except.error "disk I/O error" else st s

/-- Which of the four statements of the rebuild the environment makes
fail (all `false` = a run with no external failure). -/
structure FailureOracle where
  failCreate : Bool
  failCopy : Bool
  failDrop : Bool
  failRename : Bool
deriving DecidableEq, Repr

/-- The four statements of the rebuild, sequenced inside the
transaction. -/
def dropChain (s : Schema) (table : String) (new_columns : List ColumnInfo)
    (f : FailureOracle) : Except String Schema :=
  ((((Except.ok s).bind
      (withFail f.failCreate
        (stmtCreateTable (table ++ "_backup") new_columns))).bind
    (withFail f.failCopy
      (stmtInsertSelect (table ++ "_backup") table
        (new_columns.map ColumnInfo.name)))).bind
    (withFail f.failDrop (stmtDropTable table))).bind
    (withFail f.failRename (stmtRenameTable (table ++ "_backup") table))

/-- The `BEGIN TRANSACTION ... commit` block of loader.py:232-240: run
the four statements in order on a working copy and commit only when all
four succeeded; any failure leaves the stored schema as it was and
reports failure (second component `false`). -/
def drop_column_transaction (s : Schema) (table column_to_drop : String)
    (f : FailureOracle) : Schema × Bool :=
  match schemaGet s table with
  | none => (s, false)
  | some t =>
    match dropChain s table
        (t.columns.filter (fun c => !(c.name == column_to_drop))) f with
    | Except.ok s1 => (s1, true)
    | Except.error _ => (s, false)

/-! ## Row-level helper lemmas -/

theorem rowGet_cons (x : String × SQLValue) (t : Row) (c : String) :
    rowGet (x :: t) c = if x.1 = c then x.2 else rowGet t c := by
  by_cases h : x.1 = c
  · simp [rowGet, List.find?_cons_of_pos, h]
  · simp [rowGet, List.find?_cons_of_neg, h]

theorem rowGet_rowSet_ne (r : Row) (c c' : String) (v : SQLValue)
    (h : c' ≠ c) : rowGet (rowSet r c v) c' = rowGet r c' := by
  induction r with
  | nil => rfl
  | cons x t ih =>
    simp only [rowSet, List.map_cons]
    by_cases hx : x.1 = c
    · rw [show (if x.1 == c then (x.1, v) else x) = (x.1, v) by simp [hx]]
      rw [rowGet_cons, rowGet_cons]
      have hne : ¬ x.1 = c' := by rw [hx]; exact fun hh => h hh.symm
      rw [if_neg hne, if_neg hne]
      exact ih
    · rw [show (if x.1 == c then (x.1, v) else x) = x by simp [hx]]
      rw [rowGet_cons, rowGet_cons]
      by_cases hc' : x.1 = c'
      · rw [if_pos hc', if_pos hc']
      · rw [if_neg hc', if_neg hc']; exact ih

theorem rowGet_rowSet_self (r : Row) (c : String) (v : SQLValue)
    (h : ∃ p ∈ r, p.1 = c) : rowGet (rowSet r c v) c = v := by
  induction r with
  | nil => rcases h with ⟨p, hp, _⟩; cases hp
  | cons x t ih =>
    simp only [rowSet, List.map_cons]
    by_cases hx : x.1 = c
    · rw [show (if x.1 == c then (x.1, v) else x) = (x.1, v) by simp [hx]]
      rw [rowGet_cons, if_pos hx]
    · rw [show (if x.1 == c then (x.1, v) else x) = x by simp [hx]]
      rw [rowGet_cons, if_neg hx]
      apply ih
      rcases h with ⟨p, hp, hpc⟩
      rcases List.mem_cons.mp hp with hph | hpt
      · exact absurd (hph ▸ hpc) hx
      · exact ⟨p, hpt, hpc⟩

theorem rowGet_append_single_ne (r : Row) (c c' : String) (v : SQLValue)
    (h : c' ≠ c) : rowGet (r ++ [(c, v)]) c' = rowGet r c' := by
  induction r with
  | nil =>
    simp only [List.nil_append, rowGet_cons]
    rw [if_neg (fun hh => h hh.symm)]
  | cons x t ih =>
    simp only [List.cons_append, rowGet_cons]
    by_cases hx : x.1 = c'
    · rw [if_pos hx, if_pos hx]
    · rw [if_neg hx, if_neg hx]; exact ih

theorem rowGet_append_single_self (r : Row) (c : String) (v : SQLValue)
    (h : ∀ p ∈ r, p.1 ≠ c) : rowGet (r ++ [(c, v)]) c = v := by
  induction r with
  | nil => simp [rowGet_cons]
  | cons x t ih =>
    simp only [List.cons_append, rowGet_cons]
    rw [if_neg (h x (List.mem_cons_self x t))]
    exact ih (fun p hp => h p (List.mem_cons_of_mem x hp))

theorem rowGet_insertRowValues_id (cols : List ColumnInfo) (newId : ℤ)
    (vals : List (String × SQLValue))
    (h : cols.any (fun c => c.name == "id") = true) :
    rowGet (insertRowValues cols newId vals) "id" = SQLValue.int newId := by
  induction cols with
  | nil => simp at h
  | cons c t ih =>
    simp only [insertRowValues, List.map_cons, rowGet_cons]
    by_cases hc : c.name = "id"
    · rw [if_pos hc]
      simp [insertColValue, hc]
    · rw [if_neg hc]
      have ht : t.any (fun c => c.name == "id") = true := by
        simpa [hc] using h
      exact ih ht

theorem rowGet_insertRowValues_found (cols : List ColumnInfo) (newId : ℤ)
    (vals : List (String × SQLValue)) (cname : String) (v : SQLValue)
    (hne : cname ≠ "id")
    (hany : cols.any (fun c => c.name == cname) = true)
    (hfind : (vals.find? (fun p => p.1 == cname)).map Prod.snd = some v) :
    rowGet (insertRowValues cols newId vals) cname = v := by
  induction cols with
  | nil => simp at hany
  | cons c t ih =>
    simp only [insertRowValues, List.map_cons, rowGet_cons]
    by_cases hc : c.name = cname
    · rw [if_pos hc]
      simp only [insertColValue, hc]
      rw [if_neg (by simp [hne])]
      cases hf : vals.find? (fun p => p.1 == cname) with
      | none => rw [hf] at hfind; simp at hfind
      | some p =>
        rw [hf] at hfind
        simp only [Option.map] at hfind
        exact Option.some.inj hfind
    · rw [if_neg hc]
      exact ih (by simpa [hc] using hany)

theorem foldl_max_le_init (l : List Row) (a : ℤ) :
    a ≤ l.foldl (fun m r => max m (rowId r)) a := by
  induction l generalizing a with
  | nil => simp
  | cons x t ih =>
    exact le_trans (le_max_left a (rowId x)) (ih (max a (rowId x)))

theorem rowId_le_foldl_max (l : List Row) (r : Row) (hr : r ∈ l) :
    ∀ a : ℤ, rowId r ≤ l.foldl (fun m r => max m (rowId r)) a := by
  induction l with
  | nil => cases hr
  | cons x t ih =>
    intro a
    rcases List.mem_cons.mp hr with hx | ht
    · subst hx
      exact le_trans (le_max_right a (rowId r)) (foldl_max_le_init t _)
    · exact ih ht (max a (rowId x))

theorem maxRowId_lt_nextRowId (db : DB) : maxRowId db.table < nextRowId db := by
  unfold nextRowId
  split
  · have := le_max_left (maxRowId db.table) db.seq; omega
  · omega

theorem rowGet_id_ne_next (db : DB) (r : Row) (hr : r ∈ db.table.rows) :
    (rowGet r "id" == SQLValue.int (nextRowId db)) = false := by
  rw [beq_eq_false_iff_ne]
  intro he
  have h1 : rowId r = nextRowId db := by simp [rowId, he]
  have h2 : rowId r ≤ maxRowId db.table :=
    rowId_le_foldl_max db.table.rows r hr 0
  have h3 := maxRowId_lt_nextRowId db
  omega

/-- The single inserted record of a non-duplicate ingest, before the
path-completing UPDATE. -/
def pendingIngestRow (db : DB) (nm dt h : String) : Row :=
  insertRowValues db.table.columns (nextRowId db) (ingestVals nm dt h)

/-- The same record after the UPDATE of loader.py:617-618. -/
def completedIngestRow (db : DB) (nm dt h : String) : Row :=
  rowSet (rowSet (pendingIngestRow db nm dt h) "file_path"
      (SQLValue.text (materializedFilePath nm)))
    "preview_path" (SQLValue.text (materializedPreviewPath nm))

theorem rowGet_pendingIngestRow_hash (db : DB) (nm dt h : String)
    (hhash : db.table.columns.any (fun c => c.name == "hash") = true) :
    rowGet (pendingIngestRow db nm dt h) "hash" = SQLValue.text h := by
  apply rowGet_insertRowValues_found
  · decide
  · exact hhash
  · rfl

theorem rowGet_completedIngestRow_hash (db : DB) (nm dt h : String)
    (hhash : db.table.columns.any (fun c => c.name == "hash") = true) :
    rowGet (completedIngestRow db nm dt h) "hash" = SQLValue.text h := by
  unfold completedIngestRow
  rw [rowGet_rowSet_ne _ _ _ _ (by decide), rowGet_rowSet_ne _ _ _ _ (by decide)]
  exact rowGet_pendingIngestRow_hash db nm dt h hhash

theorem rows_after_ingest (db : DB) (h nm dt : String) (b : Bool)
    (hid : db.table.columns.any (fun c => c.name == "id") = true)
    (hnone : db.table.rows.find? (hashMatchRow h) = none) :
    (add_hdri_one db (some h) nm dt b).1.table.rows
      = db.table.rows ++
        [if b then completedIngestRow db nm dt h else pendingIngestRow db nm dt h] := by
  cases b with
  | false =>
    simp only [add_hdri_one, hnone]
    rfl
  | true =>
    simp only [add_hdri_one, hnone]
    simp only [List.map_append, List.map_cons, List.map_nil]
    have h1 : List.map (fun r0 =>
        if rowGet r0 "id" == SQLValue.int (nextRowId db) then
          rowSet (rowSet r0 "file_path" (SQLValue.text (materializedFilePath nm)))
            "preview_path" (SQLValue.text (materializedPreviewPath nm))
        else r0) db.table.rows = db.table.rows := by
      rw [List.map_congr_left (fun r hr => ?_), List.map_id]
      rw [rowGet_id_ne_next db r hr]
      rfl
    have h2 : (rowGet (insertRowValues db.table.columns (nextRowId db)
        (ingestVals nm dt h)) "id" == SQLValue.int (nextRowId db)) = true := by
      rw [rowGet_insertRowValues_id _ _ _ hid]
      exact beq_self_eq_true _
    rw [h1, h2]
    rfl

theorem rowId_ingestRow (db : DB) (nm dt h : String) (b1 : Bool)
    (hid : db.table.columns.any (fun c => c.name == "id") = true) :
    rowId (if b1 then completedIngestRow db nm dt h
      else pendingIngestRow db nm dt h) = nextRowId db := by
  cases b1 with
  | false =>
    rw [if_neg (by decide)]
    unfold rowId pendingIngestRow
    rw [rowGet_insertRowValues_id _ _ _ hid]
  | true =>
    rw [if_pos (by decide)]
    unfold rowId completedIngestRow
    rw [rowGet_rowSet_ne _ _ _ _ (by decide),
      rowGet_rowSet_ne _ _ _ _ (by decide)]
    unfold pendingIngestRow
    rw [rowGet_insertRowValues_id _ _ _ hid]

theorem hashMatch_ingestRow (db : DB) (nm dt h : String) (b1 : Bool)
    (hhash : db.table.columns.any (fun c => c.name == "hash") = true) :
    hashMatchRow h (if b1 then completedIngestRow db nm dt h
      else pendingIngestRow db nm dt h) = true := by
  unfold hashMatchRow
  cases b1 with
  | false =>
    rw [if_neg (by decide)]
    rw [rowGet_pendingIngestRow_hash db nm dt h hhash]
    exact beq_self_eq_true _
  | true =>
    rw [if_pos (by decide)]
    rw [rowGet_completedIngestRow_hash db nm dt h hhash]
    exact beq_self_eq_true _

theorem add_hdri_one_duplicate (db : DB) (h nm dt : String) (b : Bool)
    (r : Row) (hm : db.table.rows.find? (hashMatchRow h) = some r) :
    add_hdri_one db (some h) nm dt b
      = (db, IngestOutcome.duplicate (rowId r), 0) := by
  simp only [add_hdri_one, hm]

theorem find?_after_ingest (db : DB) (h nm dt : String) (b1 : Bool)
    (hid : db.table.columns.any (fun c => c.name == "id") = true)
    (hhash : db.table.columns.any (fun c => c.name == "hash") = true)
    (hnone : db.table.rows.find? (hashMatchRow h) = none) :
    (add_hdri_one db (some h) nm dt b1).1.table.rows.find? (hashMatchRow h)
      = some (if b1 then completedIngestRow db nm dt h
          else pendingIngestRow db nm dt h) := by
  rw [rows_after_ingest db h nm dt b1 hid hnone, List.find?_append, hnone]
  simp only [Option.none_or]
  exact List.find?_cons_of_pos _ (hashMatch_ingestRow db nm dt h b1 hhash)

/-- C1: an ingest whose computed fingerprint equals the hash of a stored
record is rejected as a duplicate carrying the conflicting record's id,
with the catalog state unchanged (so also its row count) and zero files
written; consequently ingesting the same content twice stores exactly
one record — the first ingest adds one row and the second attempt is
rejected as a duplicate of it, leaving exactly one row with that
hash. -/
theorem c1_duplicate_ingest_rejected (db : DB) (h nm1 dt1 nm2 dt2 : String)
    (b1 b2 : Bool)
    (hid : db.table.columns.any (fun c => c.name == "id") = true)
    (hhash : db.table.columns.any (fun c => c.name == "hash") = true)
    (hnone : db.table.rows.find? (hashMatchRow h) = none) :
    (∀ (db' : DB) (nm dt : String) (b : Bool) (r : Row),
        db'.table.rows.find? (hashMatchRow h) = some r →
        add_hdri_one db' (some h) nm dt b
          = (db', IngestOutcome.duplicate (rowId r), 0)) ∧
    add_hdri_one (add_hdri_one db (some h) nm1 dt1 b1).1 (some h) nm2 dt2 b2
      = ((add_hdri_one db (some h) nm1 dt1 b1).1,
         IngestOutcome.duplicate (nextRowId db), 0) ∧
    (add_hdri_one db (some h) nm1 dt1 b1).1.table.rows.length
      = db.table.rows.length + 1 ∧
    (add_hdri_one (add_hdri_one db (some h) nm1 dt1 b1).1 (some h) nm2 dt2
        b2).1.table.rows.countP (hashMatchRow h) = 1 := by
  have hdup : ∀ (db' : DB) (nm dt : String) (b : Bool) (r : Row),
      db'.table.rows.find? (hashMatchRow h) = some r →
      add_hdri_one db' (some h) nm dt b
        = (db', IngestOutcome.duplicate (rowId r), 0) :=
    fun db' nm dt b r hm => add_hdri_one_duplicate db' h nm dt b r hm
  have hfind1 := find?_after_ingest db h nm1 dt1 b1 hid hhash hnone
  have hsecond := hdup _ nm2 dt2 b2 _ hfind1
  have hsecond1 : add_hdri_one (add_hdri_one db (some h) nm1 dt1 b1).1 (some h)
      nm2 dt2 b2 = ((add_hdri_one db (some h) nm1 dt1 b1).1,
        IngestOutcome.duplicate (nextRowId db), 0) := by
    rw [hsecond, rowId_ingestRow db nm1 dt1 h b1 hid]
  refine ⟨hdup, hsecond1, ?_, ?_⟩
  · rw [rows_after_ingest db h nm1 dt1 b1 hid hnone]
    simp
  · rw [hsecond1]
    rw [rows_after_ingest db h nm1 dt1 b1 hid hnone, List.countP_append]
    have hz : db.table.rows.countP (hashMatchRow h) = 0 :=
      List.countP_eq_zero.mpr (List.find?_eq_none.mp hnone)
    rw [hz]
    simp [List.countP_cons, hashMatch_ingestRow db nm1 dt1 h b1 hhash]

theorem c1_witness :
    initialize_database.table.rows.find? (hashMatchRow "aa") = none ∧
    add_hdri_one (add_hdri_one initialize_database (some "aa") "n1" "d1"
        true).1 (some "aa") "n2" "d2" true
      = ((add_hdri_one initialize_database (some "aa") "n1" "d1" true).1,
         IngestOutcome.duplicate (nextRowId initialize_database), 0) :=
  ⟨rfl,
   (c1_duplicate_ingest_rejected initialize_database "aa" "n1" "d1" "n2" "d2"
      true true (by decide) (by decide) rfl).2.1⟩

/-- C3 counterexample: the claim that a failed materialization leaves no
fingerprint blocking a future re-ingest is false on the code.  Concretely:
on a fresh catalog, ingesting a file with fingerprint "aa" whose file
materialization fails still creates record 1 (with the hash stored and an
empty `file_path`), and a later ingest of the very same asset is rejected
as a duplicate of that half-finished record. -/
theorem c3_counterexample :
    (add_hdri_one initialize_database (some "aa") "n" "d" false).2.1
      = IngestOutcome.createFailed 1 ∧
    (add_hdri_one initialize_database (some "aa") "n" "d" false).1.table.rows.length
      = 1 ∧
    (((add_hdri_one initialize_database (some "aa") "n" "d"
        false).1.table.rows.find? (hashMatchRow "aa")).map
          (fun r => rowGet r "file_path")) = some (SQLValue.text "") ∧
    (add_hdri_one (add_hdri_one initialize_database (some "aa") "n" "d"
        false).1 (some "aa") "n2" "d2" true).2.1
      = IngestOutcome.duplicate 1 := by
  decide

/-- C3 (amended): record creation is the only step that enforces the
uniqueness invariant and path completion is a separate step that never
touches the hash, but a failure materializing files DOES leave an orphan
fingerprint that blocks a legitimate future re-ingest of the same asset:
the aborted ingest leaves a record holding the hash with an empty
`file_path`, and a later ingest of the same content is rejected as a
duplicate of that record (the dedup check does not exempt pending
records). -/
theorem c3_pending_fingerprint_blocks_reingest (db : DB)
    (h nm1 dt1 nm2 dt2 : String) (b2 : Bool)
    (hid : db.table.columns.any (fun c => c.name == "id") = true)
    (hhash : db.table.columns.any (fun c => c.name == "hash") = true)
    (hfile : db.table.columns.any (fun c => c.name == "file_path") = true)
    (hnone : db.table.rows.find? (hashMatchRow h) = none) :
    (add_hdri_one db (some h) nm1 dt1 false).2.1
      = IngestOutcome.createFailed (nextRowId db) ∧
    (add_hdri_one db (some h) nm1 dt1 false).1.table.rows
      = db.table.rows ++ [pendingIngestRow db nm1 dt1 h] ∧
    rowGet (pendingIngestRow db nm1 dt1 h) "hash" = SQLValue.text h ∧
    rowGet (pendingIngestRow db nm1 dt1 h) "file_path" = SQLValue.text "" ∧
    add_hdri_one (add_hdri_one db (some h) nm1 dt1 false).1 (some h) nm2 dt2 b2
      = ((add_hdri_one db (some h) nm1 dt1 false).1,
         IngestOutcome.duplicate (nextRowId db), 0) ∧
    rowGet (completedIngestRow db nm1 dt1 h) "hash"
      = rowGet (pendingIngestRow db nm1 dt1 h) "hash" := by
  have hrows := rows_after_ingest db h nm1 dt1 false hid hnone
  rw [if_neg (by decide)] at hrows
  refine ⟨?_, hrows, rowGet_pendingIngestRow_hash db nm1 dt1 h hhash, ?_, ?_, ?_⟩
  · simp only [add_hdri_one, hnone]
    rw [if_neg (by decide)]
  · exact rowGet_insertRowValues_found _ _ _ _ _ (by decide) hfile rfl
  · have hfind1 := find?_after_ingest db h nm1 dt1 false hid hhash hnone
    rw [add_hdri_one_duplicate _ h nm2 dt2 b2 _ hfind1,
      rowId_ingestRow db nm1 dt1 h false hid]
  · unfold completedIngestRow
    rw [rowGet_rowSet_ne _ _ _ _ (by decide), rowGet_rowSet_ne _ _ _ _ (by decide)]

theorem c3_witness :
    initialize_database.table.rows.find? (hashMatchRow "bb") = none ∧
    add_hdri_one (add_hdri_one initialize_database (some "bb") "n1" "d1"
        false).1 (some "bb") "n2" "d2" true
      = ((add_hdri_one initialize_database (some "bb") "n1" "d1" false).1,
         IngestOutcome.duplicate (nextRowId initialize_database), 0) :=
  ⟨rfl,
   (c3_pending_fingerprint_blocks_reingest initialize_database "bb" "n1" "d1"
      "n2" "d2" true (by decide) (by decide) (by decide) rfl).2.2.2.2.1⟩

/-- C4: the invariant that a deleted record's id is never reassigned to a
later record fails on the code once a tag attribute has been removed.
On a fresh catalog: ingest two assets (ids 1 and 2), add tag "x", remove
it — `drop_column_from_table` re-creates the `id` column from
`PRAGMA table_info`, which cannot report the AUTOINCREMENT keyword, so
the rebuilt table assigns rowids by the plain max+1 rule — then delete
record 2 and ingest a third asset: the new record is assigned id 2, the
id of the deleted record, with hash "cc" where the deleted record had
hash "bb".  The same sequence without the tag removal assigns the fresh
id 3, confirming the rebuild as the cause. -/
theorem c4_id_reused_after_tag_removal :
    ((runOps initialize_database
        [CatalogOp.ingest (some "aa") "a" "d1" true,
         CatalogOp.ingest (some "bb") "b" "d2" true,
         CatalogOp.addTag 1 "x",
         CatalogOp.removeTag "tag_x",
         CatalogOp.deleteRecord 2,
         CatalogOp.ingest (some "cc") "c" "d3" true]).table.rows.find?
      (fun r => rowGet r "id" == SQLValue.int 2)).map (fun r => rowGet r "hash")
      = some (SQLValue.text "cc") ∧
    ((runOps initialize_database
        [CatalogOp.ingest (some "aa") "a" "d1" true,
         CatalogOp.ingest (some "bb") "b" "d2" true]).table.rows.find?
      (fun r => rowGet r "id" == SQLValue.int 2)).map (fun r => rowGet r "hash")
      = some (SQLValue.text "bb") ∧
    ((runOps initialize_database
        [CatalogOp.ingest (some "aa") "a" "d1" true,
         CatalogOp.ingest (some "bb") "b" "d2" true,
         CatalogOp.deleteRecord 2,
         CatalogOp.ingest (some "cc") "c" "d3" true]).table.rows.find?
      (fun r => rowGet r "id" == SQLValue.int 2)) = none := by
  decide

theorem proj_rowGet (cols : List ColumnInfo) (r : Row) (c : String)
    (hc : cols.any (fun col => col.name == c) = true) :
    rowGet (cols.map (fun col => (col.name, rowGet r col.name))) c
      = rowGet r c := by
  induction cols with
  | nil => simp at hc
  | cons col tl ih =>
    simp only [List.map_cons, rowGet_cons]
    by_cases hx : col.name = c
    · rw [if_pos hx, hx]
    · rw [if_neg hx]
      exact ih (by simpa [hx] using hc)

theorem proj_rowGet_none (cols : List ColumnInfo) (r : Row) (c : String)
    (hc : cols.any (fun col => col.name == c) = false) :
    rowGet (cols.map (fun col => (col.name, rowGet r col.name))) c
      = SQLValue.null := by
  induction cols with
  | nil => rfl
  | cons col tl ih =>
    simp only [List.any_cons, Bool.or_eq_false_iff] at hc
    simp only [List.map_cons, rowGet_cons]
    rw [if_neg (by simpa using hc.1)]
    exact ih hc.2

theorem rowGet_eq_null_of_not_key (r : Row) (c : String)
    (h : ∀ p ∈ r, p.1 ≠ c) : rowGet r c = SQLValue.null := by
  unfold rowGet
  rw [List.find?_eq_none.mpr (fun p hp => by simpa using h p hp)]

theorem mem_zip_map {α β : Type _} (l : List α) (F : α → β) (p : α × β)
    (hp : p ∈ l.zip (l.map F)) : p.1 ∈ l ∧ p.2 = F p.1 := by
  induction l with
  | nil => cases hp
  | cons x tl ih =>
    rcases List.mem_cons.mp hp with he | ht
    · rw [he]
      exact ⟨List.mem_cons_self x tl, rfl⟩
    · rcases ih ht with ⟨h1, h2⟩
      exact ⟨List.mem_cons_of_mem x h1, h2⟩

/-- C5: removing any column (in the program, always a tag column) through
the table rebuild keeps all remaining columns with their full
`PRAGMA table_info` metadata — type, NOT NULL flag, default and primary
key marking — keeps every record, and leaves the value of every other
attribute of every record unchanged (the surviving values are copied by
name, and attributes absent from the surviving schema read as NULL on
both sides). -/
theorem c5_remove_tag_preserves_rest (t : TableData) (d : String)
    (hkeys : ∀ r ∈ t.rows, r.map Prod.fst = t.columns.map ColumnInfo.name) :
    (∀ c : ColumnInfo,
        c ∈ (drop_column_from_table t d).columns ↔ c ∈ t.columns ∧ c.name ≠ d) ∧
    (drop_column_from_table t d).rows.length = t.rows.length ∧
    (∀ p ∈ t.rows.zip (drop_column_from_table t d).rows,
        ∀ c : String, c ≠ d → rowGet p.2 c = rowGet p.1 c) := by
  refine ⟨?_, ?_, ?_⟩
  · intro c
    simp only [drop_column_from_table, List.mem_filter, Bool.not_eq_eq_eq_not,
      Bool.not_true, beq_eq_false_iff_ne]
  · simp [drop_column_from_table]
  · intro p hp c hcd
    obtain ⟨hmem, hFe⟩ := mem_zip_map t.rows _ p hp
    rw [hFe]
    by_cases hc : (t.columns.filter (fun col => !(col.name == d))).any
        (fun col => col.name == c) = true
    · exact proj_rowGet _ _ _ hc
    · rw [proj_rowGet_none _ _ _ (by simpa using hc)]
      have horig : ∀ col ∈ t.columns, col.name ≠ c := by
        intro col hcol hec
        apply hc
        rw [List.any_eq_true]
        refine ⟨col, List.mem_filter.mpr ⟨hcol, ?_⟩, by simp [hec]⟩
        simp only [Bool.not_eq_eq_eq_not, Bool.not_true, beq_eq_false_iff_ne]
        rw [hec]
        exact hcd
      symm
      apply rowGet_eq_null_of_not_key
      intro q hq hqc
      have hkey : q.1 ∈ t.columns.map ColumnInfo.name := by
        rw [← hkeys p.1 hmem]
        exact List.mem_map_of_mem Prod.fst hq
      rcases List.mem_map.mp hkey with ⟨col, hcol, hcolname⟩
      exact horig col hcol (hcolname.trans hqc)

theorem c5_witness :
    (drop_column_from_table
        ⟨[⟨"id", "INTEGER", false, none, true⟩,
          ⟨"name", "TEXT", true, none, false⟩,
          ⟨"tag_x", "BOOLEAN", false, some (SQLValue.int 0), false⟩],
         [[("id", SQLValue.int 1), ("name", SQLValue.text "a"),
           ("tag_x", SQLValue.int 0)]]⟩ "tag_x").rows.length = 1 :=
  (c5_remove_tag_preserves_rest _ "tag_x" (by decide)).2.1

theorem head_dropWhile_false {α : Type _} (p : α → Bool) (l : List α) :
    ∀ x, (l.dropWhile p).head? = some x → p x = false := by
  induction l with
  | nil => intro x hx; cases hx
  | cons a t ih =>
    intro x hx
    by_cases h : p a = true
    · rw [List.dropWhile_cons_of_pos h] at hx
      exact ih x hx
    · rw [List.dropWhile_cons_of_neg h] at hx
      cases hx
      simpa using h

theorem dropWhile_eq_self_of_head {α : Type _} (p : α → Bool) (l : List α)
    (h : ∀ x, l.head? = some x → p x = false) : l.dropWhile p = l := by
  cases l with
  | nil => rfl
  | cons a t => exact List.dropWhile_cons_of_neg (by simp [h a rfl])

theorem dropWhile_idem {α : Type _} (p : α → Bool) (l : List α) :
    (l.dropWhile p).dropWhile p = l.dropWhile p :=
  dropWhile_eq_self_of_head p _ (head_dropWhile_false p l)

theorem getLast?_dropWhile {α : Type _} (p : α → Bool) (l : List α) :
    ∀ x, (l.dropWhile p).getLast? = some x → l.getLast? = some x := by
  induction l with
  | nil => intro x hx; cases hx
  | cons a t ih =>
    intro x hx
    by_cases h : p a = true
    · rw [List.dropWhile_cons_of_pos h] at hx
      have ht := ih x hx
      cases t with
      | nil => cases ht
      | cons b tb => rw [List.getLast?_cons_cons]; exact ht
    · rw [List.dropWhile_cons_of_neg h] at hx
      exact hx

theorem stripData_idem (l : List Char) : stripData (stripData l) = stripData l := by
  unfold stripData
  have h1 : ((((l.dropWhile Char.isWhitespace).reverse.dropWhile
      Char.isWhitespace).reverse).dropWhile Char.isWhitespace)
      = ((l.dropWhile Char.isWhitespace).reverse.dropWhile
          Char.isWhitespace).reverse := by
    apply dropWhile_eq_self_of_head
    intro x hx
    rw [List.head?_reverse] at hx
    have h2 := getLast?_dropWhile Char.isWhitespace
      (l.dropWhile Char.isWhitespace).reverse x hx
    rw [List.getLast?_reverse] at h2
    exact head_dropWhile_false Char.isWhitespace l x h2
  rw [h1, List.reverse_reverse, dropWhile_idem]

theorem stripString_idem (s : String) :
    stripString (stripString s) = stripString s :=
  congrArg String.mk (stripData_idem s.data)

theorem safe_tag_column_ne (s c : String) (hc : c.length < 4) :
    safe_tag_column s ≠ c := by
  intro h
  have h2 := congrArg String.length h
  rw [safe_tag_column, String.length_append] at h2
  have h3 : ("tag_" : String).length = 4 := rfl
  omega

/-- C9: adding a tag forms the column identity by stripping the typed
name, turning internal spaces into underscores and prefixing the
reserved `tag_` marker; when the column is new it is appended with
`BOOLEAN DEFAULT 0` so every existing record reads it as 0 (false) while
the record whose dialog introduced the tag is simultaneously set to 1,
and no other attribute of any record changes; when the column already
exists the call is a no-op that leaves the whole catalog state — in
particular all existing tag values — untouched. -/
theorem c9_add_tag_semantics (db : DB) (recId : ℤ) (txt : String)
    (ht : stripString txt ≠ "")
    (hkeys : ∀ r ∈ db.table.rows,
      r.map Prod.fst = db.table.columns.map ColumnInfo.name) :
    (db.table.columns.any
        (fun c => c.name == safe_tag_column (stripString txt)) = true →
      add_new_tag db recId txt = db) ∧
    (db.table.columns.any
        (fun c => c.name == safe_tag_column (stripString txt)) = false →
      (add_new_tag db recId txt).table.columns
        = db.table.columns ++
          [⟨"tag_" ++ replaceSpaces (stripString txt), "BOOLEAN", false,
            some (SQLValue.int 0), false⟩] ∧
      (add_new_tag db recId txt).table.rows.length = db.table.rows.length ∧
      ∀ p ∈ db.table.rows.zip (add_new_tag db recId txt).table.rows,
        (rowGet p.2 (safe_tag_column (stripString txt))
          = if rowGet p.1 "id" = SQLValue.int recId then SQLValue.int 1
            else SQLValue.int 0) ∧
        ∀ c : String, c ≠ safe_tag_column (stripString txt) →
          rowGet p.2 c = rowGet p.1 c) := by
  constructor
  · intro hex
    simp only [add_new_tag]
    rw [if_neg ht, if_pos hex]
  · intro hex
    have hnew : add_new_tag db recId txt
        = ⟨⟨db.table.columns ++
            [⟨safe_tag_column (stripString txt), "BOOLEAN", false,
              some (SQLValue.int 0), false⟩],
           (db.table.rows.map (fun r =>
              r ++ [(safe_tag_column (stripString txt), SQLValue.int 0)])).map
            (fun r => if rowGet r "id" == SQLValue.int recId then
              rowSet r (safe_tag_column (stripString txt)) (SQLValue.int 1)
            else r)⟩,
          db.autoinc, db.seq⟩ := by
      simp only [add_new_tag]
      rw [if_neg ht, if_neg (by simp [hex])]
    refine ⟨by rw [hnew]; simp [safe_tag_column, stripString_idem], by rw [hnew]; simp, ?_⟩
    intro p hp
    rw [hnew] at hp
    simp only [List.map_map] at hp
    obtain ⟨hmem, hFe⟩ := mem_zip_map db.table.rows _ p hp
    have hnotkey : ∀ q ∈ p.1, q.1 ≠ safe_tag_column (stripString txt) := by
      intro q hq hqc
      have hkey : q.1 ∈ db.table.columns.map ColumnInfo.name := by
        rw [← hkeys p.1 hmem]
        exact List.mem_map_of_mem Prod.fst hq
      rcases List.mem_map.mp hkey with ⟨col, hcol, hcolname⟩
      have : db.table.columns.any
          (fun c => c.name == safe_tag_column (stripString txt)) = true := by
        rw [List.any_eq_true]
        exact ⟨col, hcol, by simp [hcolname.trans hqc]⟩
      rw [hex] at this
      cases this
    have hid_pres : rowGet (p.1 ++
        [(safe_tag_column (stripString txt), SQLValue.int 0)]) "id"
        = rowGet p.1 "id" :=
      rowGet_append_single_ne p.1 _ "id" _
        (fun hh => safe_tag_column_ne _ _ (by decide) hh.symm)
    rw [hFe]
    simp only [Function.comp]
    by_cases hcond : rowGet p.1 "id" = SQLValue.int recId
    · rw [if_pos (by rw [hid_pres]; simp [hcond]), if_pos hcond]
      constructor
      · apply rowGet_rowSet_self
        exact ⟨(safe_tag_column (stripString txt), SQLValue.int 0),
          List.mem_append_right _ (List.mem_singleton.mpr rfl), rfl⟩
      · intro c hc
        rw [rowGet_rowSet_ne _ _ _ _ hc]
        exact rowGet_append_single_ne p.1 _ c _ hc
    · rw [if_neg (by rw [hid_pres]; simp [hcond]), if_neg hcond]
      constructor
      · exact rowGet_append_single_self p.1 _ _ hnotkey
      · intro c hc
        exact rowGet_append_single_ne p.1 _ c _ hc

theorem c9_witness :
    (add_new_tag initialize_database 1 "Studio Light").table.columns
      = initialize_database.table.columns ++
        [⟨"tag_" ++ replaceSpaces (stripString "Studio Light"), "BOOLEAN",
          false, some (SQLValue.int 0), false⟩] :=
  ((c9_add_tag_semantics initialize_database 1 "Studio Light" (by decide)
      (by decide)).2 (by decide)).1

theorem perm_insertRowSorted (le : Row → Row → Bool) (r : Row)
    (l : List Row) : (insertRowSorted le r l).Perm (r :: l) := by
  induction l with
  | nil => exact List.Perm.refl _
  | cons x xs ih =>
    simp only [insertRowSorted]
    by_cases h : le r x = true
    · rw [if_pos h]
    · rw [if_neg h]
      exact (List.Perm.cons x ih).trans (List.Perm.swap r x xs)

theorem perm_sortRowsBy (le : Row → Row → Bool) (l : List Row) :
    (sortRowsBy le l).Perm l := by
  induction l with
  | nil => exact List.Perm.refl _
  | cons x xs ih =>
    exact (perm_insertRowSorted le x (sortRowsBy le xs)).trans
      (List.Perm.cons x ih)

theorem queryConds_all_iff (searchText : String) (tags : List String)
    (r : Row) :
    (queryConds searchText tags).all (fun c => c r) = true ↔
      ((searchText ≠ "" →
          likeContains (textOf (rowGet r "name")) searchText = true) ∧
        ∀ t ∈ tags, rowGet r t = SQLValue.int 1) := by
  unfold queryConds
  rw [List.all_append, Bool.and_eq_true]
  constructor
  · rintro ⟨h1, h2⟩
    constructor
    · intro hne
      rw [if_pos hne] at h1
      simpa using h1
    · intro t ht
      have h3 := List.all_eq_true.mp h2 _ (List.mem_map_of_mem _ ht)
      simpa [beq_iff_eq] using h3
  · rintro ⟨h1, h2⟩
    constructor
    · by_cases hne : searchText = ""
      · rw [if_neg (by simp [hne])]
        rfl
      · rw [if_pos hne]
        simp [h1 hne]
    · rw [List.all_eq_true]
      intro c hc
      rcases List.mem_map.mp hc with ⟨t, ht, rfl⟩
      simp [beq_iff_eq, h2 t ht]

/-- C10: a query returns exactly the records satisfying the conjunction
of its filters — the (case-insensitive) substring match on `name` when
a search string is given AND value 1 in every checked tag column (AND
semantics); with no search string and no checked tags the result is the
whole catalog (up to the requested ordering), and on an empty catalog
the result is the empty sequence. -/
theorem c10_query_filter_semantics (db : DB) (searchText : String)
    (tags : List String) (opt : SortOption) :
    (∀ r : Row, r ∈ load_hdri_images db searchText tags opt ↔
        (r ∈ db.table.rows ∧
          (searchText ≠ "" →
            likeContains (textOf (rowGet r "name")) searchText = true) ∧
          ∀ t ∈ tags, rowGet r t = SQLValue.int 1)) ∧
    (searchText = "" → tags = [] →
      (load_hdri_images db searchText tags opt).Perm db.table.rows) ∧
    (db.table.rows = [] → load_hdri_images db searchText tags opt = []) := by
  refine ⟨?_, ?_, ?_⟩
  · intro r
    unfold load_hdri_images
    rw [(perm_sortRowsBy (rowLe opt) _).mem_iff, List.mem_filter,
      queryConds_all_iff]
  · intro hs htg
    subst hs
    subst htg
    unfold load_hdri_images
    have hfilter : db.table.rows.filter
        (fun r => (queryConds "" []).all (fun c => c r)) = db.table.rows := by
      simp [queryConds]
    rw [hfilter]
    exact perm_sortRowsBy _ _
  · intro hrows
    unfold load_hdri_images
    rw [hrows]
    rfl

theorem c10_witness :
    initialize_database.table.rows = [] ∧
    load_hdri_images initialize_database "" [] SortOption.alphaAsc = [] :=
  ⟨rfl,
   (c10_query_filter_semantics initialize_database "" []
      SortOption.alphaAsc).2.2 rfl⟩

/-! ## Lemmas about the rebuild transaction -/

theorem bind_ok_elim (e : Except String Schema) (b : Bool)
    (st : Schema → Except String Schema) (s1 : Schema)
    (h : e.bind (withFail b st) = Except.ok s1) :
    b = false ∧ ∃ s0, e = Except.ok s0 ∧ st s0 = Except.ok s1 := by
  cases e with
  | error m => simp [Except.bind] at h
  | ok s0 =>
    cases b with
    | true => simp [Except.bind, withFail] at h
    | false =>
      refine ⟨rfl, s0, rfl, ?_⟩
      simpa [Except.bind, withFail] using h

theorem schemaGet_none_find (s : Schema) (nm : String)
    (h : schemaGet s nm = none) : s.find? (fun p => p.1 == nm) = none := by
  unfold schemaGet at h
  cases hf : s.find? (fun p => p.1 == nm) with
  | none => rfl
  | some p => rw [hf] at h; cases h

theorem schemaGet_some_find (s : Schema) (nm : String) (t : TableData)
    (h : schemaGet s nm = some t) :
    ∃ p, s.find? (fun q => q.1 == nm) = some p ∧ p.1 = nm ∧ p.2 = t := by
  unfold schemaGet at h
  cases hf : s.find? (fun q => q.1 == nm) with
  | none => rw [hf] at h; cases h
  | some p =>
    rw [hf] at h
    have hp := List.find?_some hf
    simp only [beq_iff_eq] at hp
    exact ⟨p, rfl, hp, Option.some.inj h⟩

theorem append_backup_ne (a : String) : a ++ "_backup" ≠ a := by
  intro h
  have h2 := congrArg String.length h
  rw [String.length_append] at h2
  have h3 : ("_backup" : String).length = 7 := rfl
  omega

theorem not_key_of_schemaGet_none (s : Schema) (nm : String)
    (h : schemaGet s nm = none) : ∀ p ∈ s, (p.1 == nm) = false := by
  intro p hp
  have hf := schemaGet_none_find s nm h
  have := List.find?_eq_none.mp hf p hp
  simpa using this

theorem schemaSet_append_free (s : Schema) (nm : String) (t0 b : TableData)
    (h : ∀ p ∈ s, (p.1 == nm) = false) :
    schemaSet (s ++ [(nm, t0)]) nm b = s ++ [(nm, b)] := by
  unfold schemaSet
  rw [List.map_append]
  congr 1
  · rw [List.map_congr_left (fun p hp => ?_), List.map_id]
    rw [h p hp]
    rfl
  · simp

theorem ok_bind (a : Schema) (g : Schema → Except String Schema) :
    (Except.ok a : Except String Schema).bind g = g a := rfl

theorem find?_singleton_none (nm other : String) (b : TableData)
    (h : other ≠ nm) :
    List.find? (fun q => q.1 == nm) [(other, b)] = none := by
  rw [List.find?_cons_of_neg]
  · rfl
  · simp [h]

theorem find?_singleton_self (nm : String) (b : TableData) :
    List.find? (fun q => q.1 == nm) [(nm, b)] = some (nm, b) :=
  List.find?_cons_of_pos _ (by simp)

theorem find?_filter_not_key (s : Schema) (nm : String) :
    List.find? (fun q => q.1 == nm) (s.filter (fun q => !(q.1 == nm)))
      = none :=
  List.find?_eq_none.mpr (fun q hq => by
    simpa using (List.mem_filter.mp hq).2)

theorem find?_filter_other_none (s : Schema) (nm other : String)
    (h : ∀ p ∈ s, (p.1 == other) = false) :
    List.find? (fun q => q.1 == other) (s.filter (fun q => !(q.1 == nm)))
      = none :=
  List.find?_eq_none.mpr (fun q hq => by
    simp [h q (List.mem_filter.mp hq).1])

theorem dropChain_success (s : Schema) (table col : String) (t : TableData)
    (htab : schemaGet s table = some t)
    (hfree : schemaGet s (table ++ "_backup") = none) :
    dropChain s table (t.columns.filter (fun c => !(c.name == col)))
        ⟨false, false, false, false⟩
      = Except.ok (s.filter (fun p => !(p.1 == table)) ++
          [(table, drop_column_from_table t col)]) := by
  obtain ⟨p, hp, hp1, hp2⟩ := schemaGet_some_find s table t htab
  have hfreekeys := not_key_of_schemaGet_none s (table ++ "_backup") hfree
  have htempne : (table ++ "_backup") ≠ table := append_backup_ne table
  -- the four intermediate schemas
  have h1 : stmtCreateTable (table ++ "_backup")
      (t.columns.filter (fun c => !(c.name == col))) s
      = Except.ok (s ++ [(table ++ "_backup",
          (⟨t.columns.filter (fun c => !(c.name == col)), []⟩ : TableData))]) := by
    unfold stmtCreateTable
    rw [hfree]
    rfl
  have hg1 : schemaGet (s ++ [(table ++ "_backup",
      (⟨t.columns.filter (fun c => !(c.name == col)), []⟩ : TableData))])
      (table ++ "_backup")
      = some (⟨t.columns.filter (fun c => !(c.name == col)), []⟩ : TableData) := by
    unfold schemaGet
    rw [List.find?_append, schemaGet_none_find s _ hfree]
    simp
  have hg2 : schemaGet (s ++ [(table ++ "_backup",
      (⟨t.columns.filter (fun c => !(c.name == col)), []⟩ : TableData))]) table
      = some t := by
    unfold schemaGet
    rw [List.find?_append, hp]
    simp [hp2]
  have h2 : stmtInsertSelect (table ++ "_backup") table
      ((t.columns.filter (fun c => !(c.name == col))).map ColumnInfo.name)
      (s ++ [(table ++ "_backup",
        (⟨t.columns.filter (fun c => !(c.name == col)), []⟩ : TableData))])
      = Except.ok (s ++ [(table ++ "_backup",
          (⟨t.columns.filter (fun c => !(c.name == col)),
            t.rows.map (fun r =>
              ((t.columns.filter (fun c => !(c.name == col))).map
                ColumnInfo.name).map (fun c => (c, rowGet r c)))⟩ :
              TableData))]) := by
    unfold stmtInsertSelect
    rw [hg1, hg2]
    dsimp only
    rw [schemaSet_append_free s _ _ _ hfreekeys]
    simp
  have hg3 : schemaGet (s ++ [(table ++ "_backup",
      (⟨t.columns.filter (fun c => !(c.name == col)),
        t.rows.map (fun r =>
          ((t.columns.filter (fun c => !(c.name == col))).map
            ColumnInfo.name).map (fun c => (c, rowGet r c)))⟩ :
          TableData))]) table = some t := by
    unfold schemaGet
    rw [List.find?_append, hp]
    simp [hp2]
  have h3 : stmtDropTable table (s ++ [(table ++ "_backup",
      (⟨t.columns.filter (fun c => !(c.name == col)),
        t.rows.map (fun r =>
          ((t.columns.filter (fun c => !(c.name == col))).map
            ColumnInfo.name).map (fun c => (c, rowGet r c)))⟩ :
          TableData))])
      = Except.ok (s.filter (fun q => !(q.1 == table)) ++
          [(table ++ "_backup",
            (⟨t.columns.filter (fun c => !(c.name == col)),
              t.rows.map (fun r =>
                ((t.columns.filter (fun c => !(c.name == col))).map
                  ColumnInfo.name).map (fun c => (c, rowGet r c)))⟩ :
                TableData))]) := by
    unfold stmtDropTable
    rw [hg3]
    simp only [Option.isSome_some, if_pos]
    rw [List.filter_append]
    congr 1
    simp [beq_eq_false_iff_ne, htempne]
  have hg4 : schemaGet (s.filter (fun q => !(q.1 == table)) ++
      [(table ++ "_backup",
        (⟨t.columns.filter (fun c => !(c.name == col)),
          t.rows.map (fun r =>
            ((t.columns.filter (fun c => !(c.name == col))).map
              ColumnInfo.name).map (fun c => (c, rowGet r c)))⟩ :
            TableData))]) table = none := by
    unfold schemaGet
    rw [List.find?_append, find?_filter_not_key,
      find?_singleton_none _ _ _ htempne]
    rfl
  have hg5 : (schemaGet (s.filter (fun q => !(q.1 == table)) ++
      [(table ++ "_backup",
        (⟨t.columns.filter (fun c => !(c.name == col)),
          t.rows.map (fun r =>
            ((t.columns.filter (fun c => !(c.name == col))).map
              ColumnInfo.name).map (fun c => (c, rowGet r c)))⟩ :
            TableData))]) (table ++ "_backup")).isSome = true := by
    unfold schemaGet
    rw [List.find?_append,
      find?_filter_other_none s table (table ++ "_backup") hfreekeys,
      find?_singleton_self]
    rfl
  have h4 : stmtRenameTable (table ++ "_backup") table
      (s.filter (fun q => !(q.1 == table)) ++
        [(table ++ "_backup",
          (⟨t.columns.filter (fun c => !(c.name == col)),
            t.rows.map (fun r =>
              ((t.columns.filter (fun c => !(c.name == col))).map
                ColumnInfo.name).map (fun c => (c, rowGet r c)))⟩ :
              TableData))])
      = Except.ok (s.filter (fun q => !(q.1 == table)) ++
          [(table, drop_column_from_table t col)]) := by
    unfold stmtRenameTable
    rw [hg4]
    rw [if_neg (by simp)]
    rw [if_pos hg5]
    rw [List.map_append]
    have hmapid : List.map (fun p =>
        if p.1 == (table ++ "_backup") then ((table : String), p.2) else p)
        (s.filter (fun q => !(q.1 == table)))
        = List.map id (s.filter (fun q => !(q.1 == table))) :=
      List.map_congr_left (fun q hq => by
        have hmem := List.mem_filter.mp hq
        rw [if_neg (by simp [hfreekeys q hmem.1])]
        rfl)
    rw [hmapid, List.map_id]
    simp only [List.map_cons, List.map_nil]
    rw [if_pos (by simp)]
    unfold drop_column_from_table
    have hrows2 : t.rows.map (fun r =>
        ((t.columns.filter (fun c => !(c.name == col))).map
          ColumnInfo.name).map (fun c => (c, rowGet r c)))
        = t.rows.map (fun r =>
            (t.columns.filter (fun c => !(c.name == col))).map
              (fun c => (c.name, rowGet r c.name))) :=
      List.map_congr_left (fun r _ => by rw [List.map_map]; exact rfl)
    rw [hrows2]
  -- assemble the chain
  unfold dropChain
  rw [ok_bind]
  rw [show withFail (⟨false, false, false, false⟩ :
      FailureOracle).failCreate
      (stmtCreateTable (table ++ "_backup")
        (t.columns.filter (fun c => !(c.name == col)))) s
      = stmtCreateTable (table ++ "_backup")
        (t.columns.filter (fun c => !(c.name == col))) s from rfl]
  rw [h1, ok_bind]
  rw [show ∀ s0, withFail (⟨false, false, false, false⟩ :
      FailureOracle).failCopy
      (stmtInsertSelect (table ++ "_backup") table
        ((t.columns.filter (fun c => !(c.name == col))).map ColumnInfo.name))
        s0
      = stmtInsertSelect (table ++ "_backup") table
        ((t.columns.filter (fun c => !(c.name == col))).map ColumnInfo.name)
        s0 from fun s0 => rfl]
  rw [h2, ok_bind]
  rw [show ∀ s0, withFail (⟨false, false, false, false⟩ :
      FailureOracle).failDrop (stmtDropTable table) s0
      = stmtDropTable table s0 from fun s0 => rfl]
  rw [h3, ok_bind]
  rw [show ∀ s0, withFail (⟨false, false, false, false⟩ :
      FailureOracle).failRename
      (stmtRenameTable (table ++ "_backup") table) s0
      = stmtRenameTable (table ++ "_backup") table s0 from fun s0 => rfl]
  rw [h4]

/-- C6: the four-statement table rebuild of a tag removal is one
transaction: whenever the operation reports failure the stored schema —
the original table with all its rows — is exactly as before, an
environment failure injected at any of the four statements makes the
operation report failure, and (retryability) a later run with no
injected failure commits and replaces the table by the one with the
column dropped. -/
theorem c6_remove_tag_transaction_atomic (s : Schema) (table col : String)
    (t : TableData) (f : FailureOracle)
    (htab : schemaGet s table = some t) :
    ((drop_column_transaction s table col f).2 = false →
      (drop_column_transaction s table col f).1 = s) ∧
    ((f.failCreate || f.failCopy || f.failDrop || f.failRename) = true →
      (drop_column_transaction s table col f).2 = false) ∧
    (schemaGet s (table ++ "_backup") = none →
      drop_column_transaction s table col ⟨false, false, false, false⟩
        = (s.filter (fun p => !(p.1 == table)) ++
            [(table, drop_column_from_table t col)], true)) := by
  refine ⟨?_, ?_, ?_⟩
  · unfold drop_column_transaction
    rw [htab]
    dsimp only
    cases hch : dropChain s table
        (t.columns.filter (fun c => !(c.name == col))) f with
    | ok s1 =>
      intro hfalse
      exact absurd hfalse (by simp)
    | error e =>
      intro _
      rfl
  · intro hflag
    unfold drop_column_transaction
    rw [htab]
    dsimp only
    cases hch : dropChain s table
        (t.columns.filter (fun c => !(c.name == col))) f with
    | error e => rfl
    | ok s1 =>
      exfalso
      unfold dropChain at hch
      obtain ⟨hr4, s3, hch3, _⟩ := bind_ok_elim _ _ _ _ hch
      obtain ⟨hr3, s2, hch2, _⟩ := bind_ok_elim _ _ _ _ hch3
      obtain ⟨hr2, s1', hch1, _⟩ := bind_ok_elim _ _ _ _ hch2
      obtain ⟨hr1, s0, hch0, _⟩ := bind_ok_elim _ _ _ _ hch1
      rw [hr1, hr2, hr3, hr4] at hflag
      simp at hflag
  · intro hfree
    unfold drop_column_transaction
    rw [htab]
    dsimp only
    rw [dropChain_success s table col t htab hfree]

theorem c6_witness :
    (drop_column_transaction
        [("hdri", (⟨[⟨"id", "INTEGER", false, none, true⟩,
            ⟨"tag_x", "BOOLEAN", false, some (SQLValue.int 0), false⟩],
          []⟩ : TableData))] "hdri" "tag_x" ⟨false, true, false, false⟩).1
      = [("hdri", (⟨[⟨"id", "INTEGER", false, none, true⟩,
            ⟨"tag_x", "BOOLEAN", false, some (SQLValue.int 0), false⟩],
          []⟩ : TableData))] :=
  (c6_remove_tag_transaction_atomic
      [("hdri", (⟨[⟨"id", "INTEGER", false, none, true⟩,
          ⟨"tag_x", "BOOLEAN", false, some (SQLValue.int 0), false⟩],
        []⟩ : TableData))] "hdri" "tag_x"
      (⟨[⟨"id", "INTEGER", false, none, true⟩,
          ⟨"tag_x", "BOOLEAN", false, some (SQLValue.int 0), false⟩],
        []⟩ : TableData)
      ⟨false, true, false, false⟩ rfl).1
    ((c6_remove_tag_transaction_atomic
        [("hdri", (⟨[⟨"id", "INTEGER", false, none, true⟩,
            ⟨"tag_x", "BOOLEAN", false, some (SQLValue.int 0), false⟩],
          []⟩ : TableData))] "hdri" "tag_x"
        (⟨[⟨"id", "INTEGER", false, none, true⟩,
            ⟨"tag_x", "BOOLEAN", false, some (SQLValue.int 0), false⟩],
          []⟩ : TableData)
        ⟨false, true, false, false⟩ rfl).2.1 (by decide))

/-! ## Lemmas about the perceptual-hash engine -/

theorem sum_map_range {M : Type _} [AddCommMonoid M] (n : ℕ) (g : ℕ → M) :
    ((List.range n).map g).sum = ∑ i ∈ Finset.range n, g i := by
  induction n with
  | zero => simp
  | succ k ih =>
    rw [List.range_succ, List.map_append, List.sum_append,
      Finset.sum_range_succ, ih]
    simp

theorem sum_map_const {α : Type _} (l : List α) (b : ℕ) :
    (l.map (fun _ => b)).sum = l.length * b := by
  induction l with
  | nil => simp
  | cons x t ih =>
    simp only [List.map_cons, List.sum_cons, List.length_cons, ih]
    ring

theorem sum_map_mul (c : ℝ) (l : List ℝ) :
    (l.map (fun x => c * x)).sum = c * l.sum := by
  induction l with
  | nil => simp
  | cons a t ih => simp [ih, mul_add]

theorem dctLowFlat_head (px : ℕ → ℕ → ℝ) (k n : ℕ) :
    ∃ tl, dctLowFlat px (k + 1) n = dct_2d n n px 0 0 :: tl := by
  unfold dctLowFlat dctLowRows
  rw [List.range_succ_eq_map]
  simp only [List.map_cons]
  exact ⟨_, rfl⟩

theorem dctLowFlat_sum (px : ℕ → ℕ → ℝ) (hs n : ℕ) :
    (dctLowFlat px hs n).sum
      = ∑ p ∈ Finset.range hs ×ˢ Finset.range hs, dct_2d n n px p.1 p.2 := by
  unfold dctLowFlat dctLowRows
  rw [List.sum_flatten, List.map_map, sum_map_range, Finset.sum_product]
  refine Finset.sum_congr rfl (fun i _ => ?_)
  simp only [Function.comp]
  rw [sum_map_range]

theorem dctLowFlat_length (px : ℕ → ℕ → ℝ) (hs n : ℕ) :
    (dctLowFlat px hs n).length = hs * hs := by
  unfold dctLowFlat dctLowRows
  rw [List.length_flatten, List.map_map]
  have hall : ∀ x ∈ List.range hs,
      (List.length ∘ fun i => (List.range hs).map
        (fun j => dct_2d n n px i j)) x = hs := fun x _ => by simp
  rw [List.map_congr_left hall, sum_map_const, List.length_range]

theorem phashAvg_spec (px : ℕ → ℕ → ℝ) (hs n : ℕ) (hpos : 1 ≤ hs) :
    phashAvg px hs n
      = (∑ p ∈ (Finset.range hs ×ˢ Finset.range hs).erase (0, 0),
          dct_2d n n px p.1 p.2) / ((hs * hs - 1 : ℕ) : ℝ) := by
  obtain ⟨k, rfl⟩ : ∃ k, hs = k + 1 := ⟨hs - 1, by omega⟩
  obtain ⟨tl, htl⟩ := dctLowFlat_head px k n
  unfold phashAvg
  rw [htl]
  simp only [List.drop_succ_cons, List.drop_zero]
  have hsum := dctLowFlat_sum px (k + 1) n
  rw [htl] at hsum
  simp only [List.sum_cons] at hsum
  have hmem : ((0, 0) : ℕ × ℕ) ∈ Finset.range (k + 1) ×ˢ Finset.range (k + 1) := by
    simp
  have herase := Finset.add_sum_erase (Finset.range (k + 1) ×ˢ
    Finset.range (k + 1)) (fun p => dct_2d n n px p.1 p.2) hmem
  have hlen := dctLowFlat_length px (k + 1) n
  rw [htl] at hlen
  simp only [List.length_cons] at hlen
  have hlen2 : tl.length = (k + 1) * (k + 1) - 1 := by omega
  rw [hlen2]
  congr 1
  linarith [hsum, herase]

/-- C2: the fingerprint bit at (i, j) compares the DCT coefficient at
(i, j) of the top-left hashSize-by-hashSize block strictly against the
mean of all the block's coefficients except the (0,0) DC term, and the
(0,0) bit is forced to 0 unconditionally (the list-flatten-and-drop-one
of the code removes exactly the (0,0) coefficient from the averaged
set). -/
theorem c2_fingerprint_bits (px : ℕ → ℕ → ℝ) (hs n i j : ℕ)
    (hpos : 1 ≤ hs) (_hi : i < hs) (_hj : j < hs) :
    phashAvg px hs n
      = (∑ p ∈ (Finset.range hs ×ˢ Finset.range hs).erase (0, 0),
          dct_2d n n px p.1 p.2) / ((hs * hs - 1 : ℕ) : ℝ) ∧
    phashBit px hs n i j
      = (if (i, j) = ((0 : ℕ), (0 : ℕ)) then false
         else decide
          ((∑ p ∈ (Finset.range hs ×ˢ Finset.range hs).erase (0, 0),
              dct_2d n n px p.1 p.2) / ((hs * hs - 1 : ℕ) : ℝ)
            < dct_2d n n px i j)) ∧
    phashBit px hs n 0 0 = false := by
  have havg := phashAvg_spec px hs n hpos
  refine ⟨havg, ?_, by simp [phashBit]⟩
  unfold phashBit
  rw [havg]
  by_cases hij : i = 0 ∧ j = 0
  · rw [if_pos hij, if_pos (by simp [hij.1, hij.2])]
  · rw [if_neg hij, if_neg (by simpa [Prod.ext_iff] using hij)]

theorem c2_witness :
    (1 : ℕ) ≤ 8 ∧ (1 : ℕ) < 8 ∧
    phashBit (fun _ _ => (0 : ℝ)) 8 32 0 0 = false :=
  ⟨by decide, by decide,
   (c2_fingerprint_bits (fun _ _ => (0 : ℝ)) 8 32 1 1 (by decide) (by decide)
      (by decide)).2.2⟩

theorem phash_flatten_length (px : ℕ → ℕ → ℝ) (hs n : ℕ) :
    (phash px hs n).flatten.length = hs * hs := by
  unfold phash
  rw [List.length_flatten, List.map_map]
  have hall : ∀ x ∈ List.range hs,
      (List.length ∘ fun i => (List.range hs).map
        (fun j => phashBit px hs n i j)) x = hs := fun x _ => by simp
  rw [List.map_congr_left hall, sum_map_const, List.length_range]

/-- C7: the Hamming-distance operator raises rather than returning a
number when the two fingerprints have different dimensions: for
fingerprints produced by the hash engine (hashSize-by-hashSize bit
matrices) with different hashSize the size test of `ImageHash.__sub__`
fails and the comparison is rejected with the size error. -/
theorem c7_dimension_mismatch (px1 px2 : ℕ → ℕ → ℝ) (h1 h2 n1 n2 : ℕ)
    (hne : h1 ≠ h2) :
    hashSub (phash px1 h1 n1) (phash px2 h2 n2)
      = Except.error "ImageHashes must be of the same size." := by
  have hlen : (phash px1 h1 n1).flatten.length
      ≠ (phash px2 h2 n2).flatten.length := by
    rw [phash_flatten_length, phash_flatten_length]
    exact fun hcontr => hne (Nat.mul_self_inj.mp hcontr)
  unfold hashSub
  rw [if_pos hlen]

theorem c7_witness :
    (1 : ℕ) ≠ 2 ∧
    hashSub (phash (fun _ _ => (0 : ℝ)) 1 4) (phash (fun _ _ => (0 : ℝ)) 2 4)
      = Except.error "ImageHashes must be of the same size." :=
  ⟨by decide,
   c7_dimension_mismatch (fun _ _ => (0 : ℝ)) (fun _ _ => (0 : ℝ)) 1 2 4 4
     (by decide)⟩

theorem dct_1d_smul (N : ℕ) (v : ℕ → ℝ) (c : ℝ) (k : ℕ) :
    dct_1d N (fun x => c * v x) k = c * dct_1d N v k := by
  unfold dct_1d
  rw [show (∑ n ∈ Finset.range N, c * v n *
        Real.cos (Real.pi * ((n : ℝ) + 0.5) * (k : ℝ) / (N : ℝ)))
      = c * ∑ n ∈ Finset.range N, v n *
        Real.cos (Real.pi * ((n : ℝ) + 0.5) * (k : ℝ) / (N : ℝ)) from by
    rw [Finset.mul_sum]
    exact Finset.sum_congr rfl (fun n _ => by ring)]
  rw [mul_assoc]

theorem dct_2d_smul (M N : ℕ) (A : ℕ → ℕ → ℝ) (c : ℝ) (k j : ℕ) :
    dct_2d M N (fun i j2 => c * A i j2) k j = c * dct_2d M N A k j := by
  unfold dct_2d
  rw [show (fun i => dct_1d N (fun j2 => c * A i j2) j)
      = (fun i => c * dct_1d N (A i) j) from
    funext (fun i => dct_1d_smul N (A i) c j)]
  exact dct_1d_smul M (fun i => dct_1d N (A i) j) c k

theorem dctLowFlat_smul (px : ℕ → ℕ → ℝ) (c : ℝ) (hs n : ℕ) :
    dctLowFlat (fun i j => c * px i j) hs n
      = (dctLowFlat px hs n).map (fun x => c * x) := by
  unfold dctLowFlat dctLowRows
  rw [List.map_flatten]
  congr 1
  rw [List.map_map]
  exact List.map_congr_left (fun i _ => by
    simp only [Function.comp]
    rw [List.map_map]
    exact List.map_congr_left (fun j _ => dct_2d_smul n n px c i j))

theorem phashAvg_smul (px : ℕ → ℕ → ℝ) (c : ℝ) (hs n : ℕ) :
    phashAvg (fun i j => c * px i j) hs n = c * phashAvg px hs n := by
  unfold phashAvg
  rw [dctLowFlat_smul, ← List.map_drop, sum_map_mul, List.length_map,
    mul_div_assoc]

theorem phashBit_smul (px : ℕ → ℕ → ℝ) (c : ℝ) (hs n : ℕ) (hc : 0 < c)
    (i j : ℕ) :
    phashBit (fun i j => c * px i j) hs n i j = phashBit px hs n i j := by
  unfold phashBit
  by_cases hij : i = 0 ∧ j = 0
  · rw [if_pos hij, if_pos hij]
  · rw [if_neg hij, if_neg hij, phashAvg_smul, dct_2d_smul]
    exact decide_eq_decide.mpr (mul_lt_mul_left hc)

theorem phash_smul (px : ℕ → ℕ → ℝ) (c : ℝ) (hs n : ℕ) (hc : 0 < c) :
    phash (fun i j => c * px i j) hs n = phash px hs n := by
  unfold phash
  exact List.map_congr_left (fun i _ =>
    List.map_congr_left (fun j _ => phashBit_smul px c hs n hc i j))

theorem countP_zip_self (l : List Bool) :
    (l.zip l).countP (fun p => !(p.1 == p.2)) = 0 := by
  induction l with
  | nil => rfl
  | cons a t ih => simp [List.countP_cons, ih]

theorem hashSub_self (a : List (List Bool)) : hashSub a a = Except.ok 0 := by
  unfold hashSub
  rw [if_neg (by simp), countP_zip_self]

/-- C8: scaling every luminance value by a positive constant multiplies
each DCT coefficient and the non-DC mean by that constant, so every
strict coefficient-versus-mean comparison is preserved: the fingerprint
of the scaled buffer is bit-identical to the unscaled one, the (0,0)
bit is still 0, and the Hamming distance between the two fingerprints
is 0. -/
theorem c8_brightness_invariance (px : ℕ → ℕ → ℝ) (c : ℝ) (hs n : ℕ)
    (hc : 0 < c) :
    phash (fun i j => c * px i j) hs n = phash px hs n ∧
    phashBit (fun i j => c * px i j) hs n 0 0 = false ∧
    hashSub (phash (fun i j => c * px i j) hs n) (phash px hs n)
      = Except.ok 0 := by
  have hp := phash_smul px c hs n hc
  exact ⟨hp, by simp [phashBit], by rw [hp]; exact hashSub_self _⟩

theorem c8_witness :
    (0 : ℝ) < 2 ∧
    hashSub (phash (fun i j => 2 * (fun _ _ => (1 : ℝ)) i j) 8 32)
      (phash (fun _ _ => (1 : ℝ)) 8 32) = Except.ok 0 :=
  ⟨by norm_num,
   (c8_brightness_invariance (fun _ _ => (1 : ℝ)) 2 8 32 (by norm_num)).2.2⟩

end HDRILoader
